import Mathlib

/-!
Shallow embedding of the odometry estimator of src/src/odometry.cc.

Modelling conventions:
- C++ float values and float arithmetic are modelled as real numbers.
- uint16_t fields (resolution_, resolution_half_, previous_, the raw sample)
  are modelled as naturals below 65536; the one place where uint16_t wraparound
  can occur (the polarity inversion resolution_ - current) is modelled with an
  explicit mod 65536.
- int-typed intermediate values (the tick delta) are modelled as integers;
  the promotion of uint16_t operands to int in C++ makes that subtraction exact.
- uint32_t delta_us is modelled as a natural.
-/

namespace odometry

/-- Machine epsilon of the C++ float type, the value of
std::numeric_limits<float>::epsilon() = 2^(-23), used by the straight-line
branch test of Odometry::OdometryImpl::update. -/
noncomputable def floatEpsilon : ℝ := 1 / 8388608

/-- State of the Wheel class of src/src/odometry.cc. Field names follow the
source (reset_flag is the member reset_ of the source). -/
structure Wheel where
  tire_diameter : ℝ
  invert : Bool
  reset_flag : Bool
  resolution : ℕ
  resolution_half : ℕ
  angle_per_resolution : ℝ
  previous : ℕ
  angular_acceleration : ℝ
  angular_velocity : ℝ
  velocity : ℝ

/-- The Wheel constructor: Wheel(resolution, tire_diameter, invert). -/
noncomputable def mkWheel (resolution : ℕ) (tire_diameter : ℝ) (invert : Bool) : Wheel where
  tire_diameter := tire_diameter
  invert := invert
  reset_flag := true
  resolution := resolution
  resolution_half := resolution / 2
  angle_per_resolution := 2 * Real.pi / (resolution : ℝ)
  previous := 0
  angular_acceleration := 0
  angular_velocity := 0
  velocity := 0

/-- Well-formedness of a Wheel state: the derived fields hold the values the
constructor gives them, and resolution fits in uint16_t and is positive. -/
def Wheel.WF (w : Wheel) : Prop :=
  0 < w.resolution ∧ w.resolution ≤ 65535 ∧
  w.resolution_half = w.resolution / 2 ∧
  w.angle_per_resolution = 2 * Real.pi / (w.resolution : ℝ)

/-- The uint16_t assignment current = resolution_ - current of Wheel::update
for a raw value current < 65536: both operands promote to int, the difference
is taken exactly, and the assignment back to uint16_t reduces mod 65536. -/
def invertReading (resolution current : ℕ) : ℕ :=
  (resolution + 65536 - current) % 65536

/-- The int-typed part of Wheel::calculate_angular_velocity: the naive tick
delta current - previous_ together with the wraparound correction. -/
def wrapDelta (resolution resolution_half previous current : ℕ) : ℤ :=
  let delta : ℤ := (current : ℤ) - (previous : ℤ)
  if delta.natAbs ≥ resolution_half then
    if previous ≥ resolution_half then delta + (resolution : ℤ)
    else delta - (resolution : ℤ)
  else delta

/-- Wheel::calculate_angular_velocity: corrected tick delta, converted to an
angle with angle_per_resolution, divided by delta_us and scaled to seconds. -/
noncomputable def Wheel.calculate_angular_velocity (w : Wheel) (current : ℕ)
    (delta_us : ℕ) : ℝ :=
  let delta := wrapDelta w.resolution w.resolution_half w.previous current
  let angle : ℝ := (delta : ℝ) * w.angle_per_resolution
  angle / (delta_us : ℝ) * 1000000

/-- Wheel::update: polarity inversion, seeding on the first call after
construction or reset, then velocity, acceleration and previous-sample
updates. -/
noncomputable def Wheel.update (w : Wheel) (current : ℕ) (delta_us : ℕ) : Wheel :=
  let c := if w.invert then invertReading w.resolution current else current
  let w1 := if w.reset_flag then { w with previous := c, reset_flag := false } else w
  let av := w1.calculate_angular_velocity c delta_us
  { w1 with
    angular_acceleration := (av - w1.angular_acceleration) / (delta_us : ℝ) * 1000000
    velocity := av * (w1.tire_diameter / 2)
    angular_velocity := av
    previous := c }

/-- Wheel::reset. -/
def Wheel.reset (w : Wheel) : Wheel :=
  { w with
    reset_flag := true
    angular_velocity := 0
    angular_acceleration := 0
    velocity := 0 }

/-- WheelsPair of src/src/odometry.h as used by the implementation. -/
structure WheelsPair where
  left : ℝ
  right : ℝ

/-- State of Odometry::OdometryImpl. The driver reference is not part of the
state; the raw encoder readings it supplies are passed to update explicitly. -/
structure OdometryImpl where
  wheel_track_width : ℝ
  left : Wheel
  right : Wheel
  wheel_ang_accel : WheelsPair
  wheel_ang_vel : WheelsPair
  wheel_vel : WheelsPair
  velocity : ℝ
  angular_velocity : ℝ
  angle : ℝ
  x : ℝ
  y : ℝ

/-- Odometry::OdometryImpl::reset. -/
def OdometryImpl.reset (o : OdometryImpl) : OdometryImpl :=
  { o with
    left := o.left.reset
    right := o.right.reset
    angle := 0
    x := 0
    y := 0 }

/-- Odometry::OdometryImpl::update: the raw readings the driver returns for
the left and right encoder are passed as raw_left and raw_right. -/
noncomputable def OdometryImpl.update (o : OdometryImpl) (raw_left raw_right : ℕ)
    (delta_us : ℕ) : OdometryImpl :=
  let left := o.left.update raw_left delta_us
  let right := o.right.update raw_right delta_us
  let wheel_ang_vel : WheelsPair := ⟨left.angular_velocity, right.angular_velocity⟩
  let wheel_ang_accel : WheelsPair := ⟨left.angular_acceleration, right.angular_acceleration⟩
  let wheel_vel : WheelsPair := ⟨left.velocity, right.velocity⟩
  let velocity := (wheel_vel.left + wheel_vel.right) / 2
  let angular_velocity := (wheel_vel.left - wheel_vel.right) / o.wheel_track_width
  let angle := o.angle + angular_velocity / 1000
  if |wheel_vel.left - wheel_vel.right| ≤ floatEpsilon then
    let a := velocity * (delta_us : ℝ) / 1000000
    { o with
      left := left
      right := right
      wheel_ang_accel := wheel_ang_accel
      wheel_ang_vel := wheel_ang_vel
      wheel_vel := wheel_vel
      velocity := velocity
      angular_velocity := angular_velocity
      angle := angle
      x := o.x + a * Real.cos angle
      y := o.y + a * Real.sin angle }
  else
    let d := (angle - o.angle) / 2
    let a := 2 * velocity / angular_velocity * Real.sin d
    let b := angle + d
    { o with
      left := left
      right := right
      wheel_ang_accel := wheel_ang_accel
      wheel_ang_vel := wheel_ang_vel
      wheel_vel := wheel_vel
      velocity := velocity
      angular_velocity := angular_velocity
      angle := angle
      x := o.x + a * Real.cos b
      y := o.y + a * Real.sin b }

/-- For in-range values the modelled uint16_t inversion is plain subtraction. -/
theorem invertReading_eq_sub (resolution current : ℕ) (hc : current ≤ resolution)
    (hR : resolution ≤ 65535) : invertReading resolution current = resolution - current := by
  unfold invertReading
  have h1 : resolution + 65536 - current = (resolution - current) + 65536 := by omega
  rw [h1, Nat.add_mod_right, Nat.mod_eq_of_lt (by omega)]

/-- Claim C8: calling reset twice in a row produces exactly the same state as
calling it once; after reset the heading, x and y queries return 0 and both
wheels report 0 velocity, 0 angular velocity and 0 angular acceleration. -/
theorem reset_idempotent_and_zeroes (o : OdometryImpl) :
    (o.reset).reset = o.reset ∧
    (o.reset).angle = 0 ∧ (o.reset).x = 0 ∧ (o.reset).y = 0 ∧
    (o.reset).left.velocity = 0 ∧ (o.reset).left.angular_velocity = 0 ∧
    (o.reset).left.angular_acceleration = 0 ∧
    (o.reset).right.velocity = 0 ∧ (o.reset).right.angular_velocity = 0 ∧
    (o.reset).right.angular_acceleration = 0 := by
  refine ⟨?_, rfl, rfl, rfl, rfl, rfl, rfl, rfl, rfl, rfl⟩
  rfl

/-- Claim C9: reset modifies only heading, x, y and the internal wheel states;
the exposed WheelsPair snapshots and the committed body velocity and body
angular velocity keep the values they had before the reset call. -/
theorem reset_frame (o : OdometryImpl) :
    (o.reset).wheel_vel = o.wheel_vel ∧
    (o.reset).wheel_ang_vel = o.wheel_ang_vel ∧
    (o.reset).wheel_ang_accel = o.wheel_ang_accel ∧
    (o.reset).velocity = o.velocity ∧
    (o.reset).angular_velocity = o.angular_velocity ∧
    (o.reset).wheel_track_width = o.wheel_track_width := by
  exact ⟨rfl, rfl, rfl, rfl, rfl, rfl⟩

/-- Claim C4: the committed new heading is the old heading plus omega / 1000,
where omega is the body angular velocity committed by this update call, itself
the wheel linear velocity difference divided by the track width; the divisor is
the fixed constant 1000, not a function of elapsed time, so for a given omega
the heading increment is the same for every delta_us. -/
theorem update_heading_increment (o : OdometryImpl) (raw_left raw_right delta_us : ℕ) :
    (o.update raw_left raw_right delta_us).angle =
      o.angle + (o.update raw_left raw_right delta_us).angular_velocity / 1000 ∧
    (o.update raw_left raw_right delta_us).angular_velocity =
      ((o.update raw_left raw_right delta_us).wheel_vel.left -
        (o.update raw_left raw_right delta_us).wheel_vel.right) / o.wheel_track_width := by
  unfold OdometryImpl.update
  by_cases h : |(o.left.update raw_left delta_us).velocity -
      (o.right.update raw_right delta_us).velocity| ≤ floatEpsilon
  · simp [h]
  · simp [h]

/-- Claim C10: with invert set, update maps an in-range raw reading r to
resolution - r before any other processing; the raw reading 0 maps to the
resolution itself, so the stored corrected reading ranges over the interval
from 1 to resolution and leaves the documented range at r = 0. -/
theorem update_invert_range (w : Wheel) (r delta_us : ℕ) (hWF : w.WF)
    (hinv : w.invert = true) (hr : r < w.resolution) :
    (w.update r delta_us).previous = w.resolution - r ∧
    1 ≤ (w.update r delta_us).previous ∧
    (w.update r delta_us).previous ≤ w.resolution ∧
    (r = 0 → ¬ (w.update r delta_us).previous < w.resolution) := by
  obtain ⟨hpos, hle, -, -⟩ := hWF
  have hmap : invertReading w.resolution r = w.resolution - r :=
    invertReading_eq_sub _ _ (le_of_lt hr) hle
  have hprev : (w.update r delta_us).previous = w.resolution - r := by
    unfold Wheel.update
    by_cases hrst : w.reset_flag <;> simp [hinv, hrst, hmap]
  refine ⟨hprev, ?_, ?_, ?_⟩
  · omega
  · omega
  · intro h0
    rw [hprev, h0]
    omega

/-- Witness for update_invert_range at resolution 1024, raw reading 5. -/
theorem update_invert_range_witness :
    (mkWheel 1024 30 true).WF ∧ (mkWheel 1024 30 true).invert = true ∧
    (5 : ℕ) < (mkWheel 1024 30 true).resolution ∧
    ((mkWheel 1024 30 true).update 5 1000).previous = 1019 := by
  have hWF : (mkWheel 1024 30 true).WF := by
    unfold Wheel.WF mkWheel
    norm_num
  have h := update_invert_range (mkWheel 1024 30 true) 5 1000 hWF rfl (by norm_num [mkWheel])
  exact ⟨hWF, rfl, by norm_num [mkWheel], h.1⟩

/-- The corrected tick delta of a sample equal to the stored previous sample is
zero as long as half the resolution is positive. -/
theorem wrapDelta_self (resolution resolution_half p : ℕ) (h : 0 < resolution_half) :
    wrapDelta resolution resolution_half p p = 0 := by
  unfold wrapDelta
  simp only [sub_self, Int.natAbs_zero, ge_iff_le]
  rw [if_neg (by omega)]

/-- Claim C6: every update stores as angular acceleration the difference of the
newly computed angular velocity and the previously stored angular acceleration,
divided by elapsed_us and scaled to seconds. -/
theorem update_angular_acceleration (w : Wheel) (c dt : ℕ) (hdt : 0 < dt) :
    (w.update c dt).angular_acceleration =
      ((w.update c dt).angular_velocity - w.angular_acceleration) / ((dt : ℕ) : ℝ) * 1000000 := by
  unfold Wheel.update
  by_cases hrst : w.reset_flag <;> simp [hrst]

/-- Witness for update_angular_acceleration at a concrete wheel and input. -/
theorem update_angular_acceleration_witness :
    0 < 1000 ∧
    ((mkWheel 1024 30 false).update 3 1000).angular_acceleration =
      (((mkWheel 1024 30 false).update 3 1000).angular_velocity -
        (mkWheel 1024 30 false).angular_acceleration) / ((1000 : ℕ) : ℝ) * 1000000 :=
  ⟨by norm_num, update_angular_acceleration (mkWheel 1024 30 false) 3 1000 (by norm_num)⟩

/-- Counterexample to claim C5 as stated: a WheelEstimator with resolution 1
(allowed by the stated invariant resolution > 0) has resolution_half = 0, so
the wraparound test fires even on the seeding call and the first update after
construction returns a nonzero angular velocity. -/
theorem seeding_counterexample :
    ((mkWheel 1 30 false).update 0 1000).angular_velocity ≠ 0 := by
  have h : ((mkWheel 1 30 false).update 0 1000).angular_velocity =
      2 * Real.pi / 1000 * 1000000 := by
    simp [Wheel.update, mkWheel, Wheel.calculate_angular_velocity, wrapDelta]
  rw [h]
  positivity

/-- Claim C5 as amended: for every WheelEstimator whose resolution is at least
2, the first update after construction or reset yields angular velocity 0
regardless of the raw sample and of elapsed_us, stores the polarity-corrected
sample as the reference reading, and leaves the SEEDING state after exactly
that one call. -/
theorem seeding_amended (w : Wheel) (c dt : ℕ) (hWF : w.WF) (h2 : 2 ≤ w.resolution)
    (hseed : w.reset_flag = true) (hdt : 0 < dt) :
    (w.update c dt).angular_velocity = 0 ∧
    (w.update c dt).previous = (if w.invert then invertReading w.resolution c else c) ∧
    (w.update c dt).reset_flag = false := by
  obtain ⟨-, -, hhalf, -⟩ := hWF
  have hhalfpos : 0 < w.resolution_half := by omega
  unfold Wheel.update Wheel.calculate_angular_velocity
  by_cases hinv : w.invert <;>
    simp [hinv, hseed, wrapDelta_self _ _ _ hhalfpos]

/-- Witness for seeding_amended at resolution 1024, raw sample 7. -/
theorem seeding_amended_witness :
    (mkWheel 1024 30 false).WF ∧ 2 ≤ (mkWheel 1024 30 false).resolution ∧
    (mkWheel 1024 30 false).reset_flag = true ∧ 0 < 1000 ∧
    ((mkWheel 1024 30 false).update 7 1000).angular_velocity = 0 ∧
    ((mkWheel 1024 30 false).update 7 1000).previous = 7 ∧
    ((mkWheel 1024 30 false).update 7 1000).reset_flag = false := by
  have hWF : (mkWheel 1024 30 false).WF := by
    unfold Wheel.WF mkWheel
    norm_num
  have h := seeding_amended (mkWheel 1024 30 false) 7 1000 hWF
    (by norm_num [mkWheel]) rfl (by norm_num)
  exact ⟨hWF, by norm_num [mkWheel], rfl, by norm_num, h.1, h.2.1, h.2.2⟩

/-- Transcription of the wraparound rule exactly as the specification words it
(add resolution when the previous reading is below half the resolution,
subtract it otherwise); to be compared against wrapDelta from the source. -/
def specWrapDelta (resolution resolution_half previous current : ℕ) : ℤ :=
  let delta : ℤ := (current : ℤ) - (previous : ℤ)
  if delta.natAbs ≥ resolution_half then
    if previous < resolution_half then delta + (resolution : ℤ)
    else delta - (resolution : ℤ)
  else delta

/-- Counterexample to claim C2 as stated: at resolution 1024, previous reading
600 and current reading 10 the correction applied by the code adds the
resolution (previous is at least half the resolution), yielding 434, while the
rule of the claim subtracts it, yielding -1614; the resulting angular
velocities differ. -/
theorem wrap_direction_counterexample :
    wrapDelta 1024 512 600 10 = 434 ∧ specWrapDelta 1024 512 600 10 = -1614 ∧
    (({ mkWheel 1024 30 false with reset_flag := false, previous := 600 } : Wheel).update
        10 1000).angular_velocity ≠
      ((specWrapDelta 1024 512 600 10 : ℤ) : ℝ) * (2 * Real.pi / 1024) / 1000 * 1000000 := by
  refine ⟨by decide, by decide, ?_⟩
  have h : (({ mkWheel 1024 30 false with reset_flag := false, previous := 600 } : Wheel).update
      10 1000).angular_velocity = (434 : ℝ) * (2 * Real.pi / 1024) / 1000 * 1000000 := by
    simp [Wheel.update, mkWheel, Wheel.calculate_angular_velocity]
    norm_num [show wrapDelta 1024 512 600 10 = 434 from by decide]
  rw [h, show specWrapDelta 1024 512 600 10 = -1614 from by decide]
  intro hc
  have hpi := Real.pi_pos
  push_cast at hc
  nlinarith

/-- Claim C2 as amended: whenever the naive signed delta has magnitude at
least half_resolution, the code adds resolution to it when the previous stored
reading is at least half_resolution, and subtracts resolution otherwise; the
angular velocity committed by update is the so-corrected delta converted by
angle_per_resolution and the elapsed time. -/
theorem wrap_correction_amended (w : Wheel) (c dt : ℕ) (hinv : w.invert = false)
    (hrun : w.reset_flag = false) (hdt : 0 < dt)
    (htrig : ((c : ℤ) - (w.previous : ℤ)).natAbs ≥ w.resolution_half) :
    (w.update c dt).angular_velocity =
      ((((c : ℤ) - (w.previous : ℤ) +
          (if w.resolution_half ≤ w.previous then (w.resolution : ℤ)
            else -(w.resolution : ℤ))) : ℤ) : ℝ) *
        w.angle_per_resolution / ((dt : ℕ) : ℝ) * 1000000 := by
  unfold Wheel.update Wheel.calculate_angular_velocity wrapDelta
  by_cases hpc : w.resolution_half ≤ w.previous <;>
    simp [hinv, hrun, htrig, hpc, ge_iff_le] <;> push_cast <;> ring

/-- Witness for wrap_correction_amended at resolution 1024, previous 600,
current 10. -/
theorem wrap_correction_amended_witness :
    ((10 : ℤ) - (600 : ℤ)).natAbs ≥ 512 ∧ 0 < 1000 ∧
    (({ mkWheel 1024 30 false with reset_flag := false, previous := 600 } : Wheel).update
        10 1000).angular_velocity =
      ((((10 : ℤ) - (600 : ℤ) + 1024) : ℤ) : ℝ) *
        ({ mkWheel 1024 30 false with reset_flag := false, previous := 600 } : Wheel).angle_per_resolution /
        ((1000 : ℕ) : ℝ) * 1000000 := by
  have h := wrap_correction_amended
    ({ mkWheel 1024 30 false with reset_flag := false, previous := 600 } : Wheel)
    10 1000 rfl rfl (by norm_num) (by decide)
  refine ⟨by decide, by norm_num, ?_⟩
  rw [h]
  norm_num [mkWheel]

/-- Claim C1: a RUNNING non-inverted WheelEstimator whose stored previous
reading is k - 1, fed the raw reading resolution - 1 with 2 * k < resolution,
computes the tick delta -k (a backward step of magnitude k, not a forward step
of resolution - k), and commits the angular velocity
-k * (2 * pi / resolution) / elapsed_us * 1000000. -/
theorem wrap_backward (w : Wheel) (k dt : ℕ) (hWF : w.WF) (hinv : w.invert = false)
    (hrun : w.reset_flag = false) (hprev : w.previous = k - 1) (hk1 : 1 ≤ k)
    (hk : 2 * k < w.resolution) (hdt : 0 < dt) :
    wrapDelta w.resolution w.resolution_half w.previous (w.resolution - 1) = -(k : ℤ) ∧
    (w.update (w.resolution - 1) dt).angular_velocity =
      -((k : ℕ) : ℝ) * (2 * Real.pi / ((w.resolution : ℕ) : ℝ)) / ((dt : ℕ) : ℝ) * 1000000 := by
  obtain ⟨hRpos, hRle, hhalf, hapr⟩ := hWF
  have hd : wrapDelta w.resolution w.resolution_half w.previous (w.resolution - 1)
      = -(k : ℤ) := by
    unfold wrapDelta
    rw [hprev, hhalf]
    rw [if_pos (by omega), if_neg (by omega)]
    omega
  refine ⟨hd, ?_⟩
  have hav : (w.update (w.resolution - 1) dt).angular_velocity =
      ((wrapDelta w.resolution w.resolution_half w.previous (w.resolution - 1) : ℤ) : ℝ) *
        w.angle_per_resolution / ((dt : ℕ) : ℝ) * 1000000 := by
    unfold Wheel.update Wheel.calculate_angular_velocity
    simp [hinv, hrun]
  rw [hav, hd, hapr]
  push_cast
  ring

/-- Witness for wrap_backward at resolution 10, k = 2 (previous reading 1,
current raw reading 9). -/
theorem wrap_backward_witness :
    ({ mkWheel 10 30 false with reset_flag := false, previous := 1 } : Wheel).WF ∧
    2 * 2 < 10 ∧ wrapDelta 10 5 1 9 = -2 ∧
    (({ mkWheel 10 30 false with reset_flag := false, previous := 1 } : Wheel).update
        9 1000).angular_velocity =
      -((2 : ℕ) : ℝ) * (2 * Real.pi / ((10 : ℕ) : ℝ)) / ((1000 : ℕ) : ℝ) * 1000000 := by
  have hWF : ({ mkWheel 10 30 false with reset_flag := false, previous := 1 } : Wheel).WF := by
    unfold Wheel.WF mkWheel
    norm_num
  have h := wrap_backward
    ({ mkWheel 10 30 false with reset_flag := false, previous := 1 } : Wheel)
    2 1000 hWF rfl rfl rfl (by norm_num) (by norm_num [mkWheel]) (by norm_num)
  exact ⟨hWF, by norm_num, h.1, h.2⟩

/-- A reachable PoseEstimator state for exercising the straight-line branch
with a nonzero heading increment: resolution 4 wheels, a very small tire
diameter (a configuration float), track width 1, both wheels RUNNING with
previous reading 0 and pose at the origin. -/
noncomputable def straightBranchState : OdometryImpl where
  wheel_track_width := 1
  left := { tire_diameter := 1 / 1073741824, invert := false, reset_flag := false,
            resolution := 4, resolution_half := 2,
            angle_per_resolution := 2 * Real.pi / 4, previous := 0,
            angular_acceleration := 0, angular_velocity := 0, velocity := 0 }
  right := { tire_diameter := 1 / 1073741824, invert := false, reset_flag := false,
             resolution := 4, resolution_half := 2,
             angle_per_resolution := 2 * Real.pi / 4, previous := 0,
             angular_acceleration := 0, angular_velocity := 0, velocity := 0 }
  wheel_ang_accel := ⟨0, 0⟩
  wheel_ang_vel := ⟨0, 0⟩
  wheel_vel := ⟨0, 0⟩
  velocity := 0
  angular_velocity := 0
  angle := 0
  x := 0
  y := 0

/-- The left wheel of straightBranchState moves one tick in 10^6 us. -/
theorem straightBranchState_left_vel :
    (straightBranchState.left.update 1 1000000).velocity = Real.pi / 4294967296 := by
  simp [straightBranchState, Wheel.update, Wheel.calculate_angular_velocity,
    show wrapDelta 4 2 0 1 = 1 from by decide]
  ring

/-- The right wheel of straightBranchState stands still. -/
theorem straightBranchState_right_vel :
    (straightBranchState.right.update 0 1000000).velocity = 0 := by
  simp [straightBranchState, Wheel.update, Wheel.calculate_angular_velocity,
    show wrapDelta 4 2 0 0 = 0 from by decide]

/-- The wheel velocity difference of the step is within machine epsilon, so
the update takes the straight-line branch. -/
theorem straightBranchState_cond :
    |(straightBranchState.left.update 1 1000000).velocity -
      (straightBranchState.right.update 0 1000000).velocity| ≤ floatEpsilon := by
  rw [straightBranchState_left_vel, straightBranchState_right_vel, sub_zero,
    abs_of_pos (by positivity)]
  unfold floatEpsilon
  rw [div_le_div_iff (by norm_num) (by norm_num)]
  nlinarith [Real.pi_le_four]

/-- Counterexample to claim C3 as stated: on straightBranchState with raw
readings 1 and 0 over 10^6 us, the update takes the straight-line branch with
a nonzero heading increment, and the committed x differs from the value the
claim predicts with the pre-update heading (here cos 0 = 1), because the code
evaluates the cosine at the new heading. -/
theorem straight_heading_counterexample :
    (straightBranchState.update 1 0 1000000).x ≠
      straightBranchState.x +
        (straightBranchState.update 1 0 1000000).velocity * ((1000000 : ℕ) : ℝ) / 1000000 *
          Real.cos straightBranchState.angle := by
  have hxv : (straightBranchState.update 1 0 1000000).x =
      (Real.pi / 4294967296 + 0) / 2 * ((1000000 : ℕ) : ℝ) / 1000000 *
        Real.cos (0 + (Real.pi / 4294967296 - 0) / 1 / 1000) ∧
      (straightBranchState.update 1 0 1000000).velocity =
        (Real.pi / 4294967296 + 0) / 2 := by
    unfold OdometryImpl.update
    rw [if_pos straightBranchState_cond]
    rw [show straightBranchState.x = 0 from rfl, show straightBranchState.angle = 0 from rfl,
      show straightBranchState.wheel_track_width = 1 from rfl,
      straightBranchState_left_vel, straightBranchState_right_vel]
    norm_num
  have hcos : Real.cos (Real.pi / 4294967296000) < 1 := by
    have h1 : (0 : ℝ) < Real.pi / 4294967296000 := by positivity
    have h2 : Real.pi / 4294967296000 ≤ Real.pi := by
      nlinarith [Real.pi_pos]
    have h3 := Real.cos_lt_cos_of_nonneg_of_le_pi le_rfl h2 h1
    rwa [Real.cos_zero] at h3
  rw [hxv.1, hxv.2, show straightBranchState.x = 0 from rfl,
    show straightBranchState.angle = 0 from rfl, Real.cos_zero]
  have harg : (0 : ℝ) + (Real.pi / 4294967296 - 0) / 1 / 1000 = Real.pi / 4294967296000 := by
    ring
  rw [harg]
  have hA : (0 : ℝ) < (Real.pi / 4294967296 + 0) / 2 * ((1000000 : ℕ) : ℝ) / 1000000 := by
    positivity
  intro hcontra
  nlinarith [hA, hcos, Real.cos_le_one (Real.pi / 4294967296000)]

/-- Claim C3 as amended: an update that takes the straight-line branch applies
the displacement s = v * elapsed_us / 1000000 as x += s * cos h and
y += s * sin h where h is the new heading, the pre-update heading plus this
omega / 1000 of this tick (not the pre-update heading itself). -/
theorem straight_branch_amended (o : OdometryImpl) (raw_left raw_right delta_us : ℕ)
    (h : |(o.left.update raw_left delta_us).velocity -
          (o.right.update raw_right delta_us).velocity| ≤ floatEpsilon) :
    (o.update raw_left raw_right delta_us).x =
      o.x + ((o.left.update raw_left delta_us).velocity +
          (o.right.update raw_right delta_us).velocity) / 2 * ((delta_us : ℕ) : ℝ) / 1000000 *
        Real.cos (o.angle + ((o.left.update raw_left delta_us).velocity -
            (o.right.update raw_right delta_us).velocity) / o.wheel_track_width / 1000) ∧
    (o.update raw_left raw_right delta_us).y =
      o.y + ((o.left.update raw_left delta_us).velocity +
          (o.right.update raw_right delta_us).velocity) / 2 * ((delta_us : ℕ) : ℝ) / 1000000 *
        Real.sin (o.angle + ((o.left.update raw_left delta_us).velocity -
            (o.right.update raw_right delta_us).velocity) / o.wheel_track_width / 1000) := by
  unfold OdometryImpl.update
  rw [if_pos h]
  constructor <;> rfl

/-- Witness for straight_branch_amended: a zero-motion step on
straightBranchState takes the straight branch and moves x by s * cos of the
new heading. -/
theorem straight_branch_amended_witness :
    |(straightBranchState.left.update 0 1000).velocity -
      (straightBranchState.right.update 0 1000).velocity| ≤ floatEpsilon ∧
    (straightBranchState.update 0 0 1000).x =
      straightBranchState.x + ((straightBranchState.left.update 0 1000).velocity +
          (straightBranchState.right.update 0 1000).velocity) / 2 * ((1000 : ℕ) : ℝ) / 1000000 *
        Real.cos (straightBranchState.angle +
          ((straightBranchState.left.update 0 1000).velocity -
            (straightBranchState.right.update 0 1000).velocity) /
            straightBranchState.wheel_track_width / 1000) := by
  have hz : (straightBranchState.left.update 0 1000).velocity = 0 := by
    simp [straightBranchState, Wheel.update, Wheel.calculate_angular_velocity,
      show wrapDelta 4 2 0 0 = 0 from by decide]
  have hz2 : (straightBranchState.right.update 0 1000).velocity = 0 := by
    simp [straightBranchState, Wheel.update, Wheel.calculate_angular_velocity,
      show wrapDelta 4 2 0 0 = 0 from by decide]
  have hcond : |(straightBranchState.left.update 0 1000).velocity -
      (straightBranchState.right.update 0 1000).velocity| ≤ floatEpsilon := by
    rw [hz, hz2, sub_zero, abs_zero]
    unfold floatEpsilon
    norm_num
  exact ⟨hcond, (straight_branch_amended straightBranchState 0 0 1000 hcond).1⟩

/-- Feed a list of (raw reading, elapsed us) samples through Wheel.update. -/
noncomputable def runWheel (w : Wheel) (inputs : List (ℕ × ℕ)) : Wheel :=
  inputs.foldl (fun w p => w.update p.1 p.2) w

/-- Counterexample to claim C7 as stated: resolution 4, identical raw readings
2 then 0 with elapsed 1000 us. The non-inverted wheel stores previous reading
2 = half_resolution; the wraparound branch test previous >= half picks the same
branch for 2 and for its mirrored value 4 - 2 = 2, so the corrected deltas are
+2 and +6 rather than opposite, and the angular velocities are 1000 pi and
3000 pi: same sign, different magnitude. -/
theorem polarity_counterexample :
    (runWheel (mkWheel 4 30 true) [(2, 1000), (0, 1000)]).angular_velocity ≠
      -(runWheel (mkWheel 4 30 false) [(2, 1000), (0, 1000)]).angular_velocity := by
  have h1 : (runWheel (mkWheel 4 30 false) [(2, 1000), (0, 1000)]).angular_velocity
      = 1000 * Real.pi := by
    norm_num [runWheel, Wheel.update, Wheel.calculate_angular_velocity, mkWheel,
      show wrapDelta 4 2 2 2 = 0 from by decide,
      show wrapDelta 4 2 2 0 = 2 from by decide]
    ring
  have h2 : (runWheel (mkWheel 4 30 true) [(2, 1000), (0, 1000)]).angular_velocity
      = 3000 * Real.pi := by
    norm_num [runWheel, Wheel.update, Wheel.calculate_angular_velocity, mkWheel,
      invertReading,
      show wrapDelta 4 2 2 2 = 0 from by decide,
      show wrapDelta 4 2 2 4 = 6 from by decide]
    ring
  rw [h1, h2]
  intro h
  nlinarith [Real.pi_pos]

/-- Side condition of the amended polarity claim: at a step from previous raw
reading p to current raw reading c, either the wraparound correction does not
trigger, or p lies strictly outside the closed interval from
floor(resolution / 2) to resolution - floor(resolution / 2). -/
abbrev stepSafe (resolution p c : ℕ) : Prop :=
  ((c : ℤ) - (p : ℤ)).natAbs ≥ resolution / 2 →
    (p < resolution / 2 ∨ resolution - resolution / 2 < p)

/-- Mirroring both the previous and the current reading negates the corrected
tick delta, under the stepSafe side condition. -/
theorem wrapDelta_invert (R p r : ℕ) (hp : p < R) (hr : r < R)
    (hsafe : stepSafe R p r) :
    wrapDelta R (R / 2) (R - p) (R - r) = -wrapDelta R (R / 2) p r := by
  simp only [wrapDelta]
  split_ifs <;> omega

/-- Invariant tying a non-inverted wheel and its mirrored inverted twin. -/
structure WheelInv (R : ℕ) (w1 w2 : Wheel) : Prop where
  inv1 : w1.invert = false
  inv2 : w2.invert = true
  res1 : w1.resolution = R
  res2 : w2.resolution = R
  half1 : w1.resolution_half = R / 2
  half2 : w2.resolution_half = R / 2
  apr : w2.angle_per_resolution = w1.angle_per_resolution
  flag : w1.reset_flag = w2.reset_flag
  prev : w1.reset_flag = false → w1.previous < R ∧ w2.previous = R - w1.previous
  av : w2.angular_velocity = -w1.angular_velocity

/-- Characterization of all fields Wheel.update touches, with the ifs of the
source left in place. -/
theorem update_fields (w : Wheel) (r dt : ℕ) :
    (w.update r dt).invert = w.invert ∧
    (w.update r dt).resolution = w.resolution ∧
    (w.update r dt).resolution_half = w.resolution_half ∧
    (w.update r dt).angle_per_resolution = w.angle_per_resolution ∧
    (w.update r dt).reset_flag = false ∧
    (w.update r dt).previous = (if w.invert then invertReading w.resolution r else r) ∧
    (w.update r dt).angular_velocity =
      ((wrapDelta w.resolution w.resolution_half
          (if w.reset_flag then (if w.invert then invertReading w.resolution r else r)
            else w.previous)
          (if w.invert then invertReading w.resolution r else r) : ℤ) : ℝ) *
        w.angle_per_resolution / ((dt : ℕ) : ℝ) * 1000000 := by
  unfold Wheel.update Wheel.calculate_angular_velocity
  by_cases hrst : w.reset_flag <;> by_cases hinv : w.invert <;> simp [hrst, hinv]

/-- One parallel update step preserves the mirror invariant. -/
theorem update_inv (R : ℕ) (hRle : R ≤ 65535) (hR2 : 2 ≤ R) (w1 w2 : Wheel)
    (hInv : WheelInv R w1 w2) (r dt : ℕ) (hr : r < R)
    (hsafe : w1.reset_flag = false → stepSafe R w1.previous r) :
    WheelInv R (w1.update r dt) (w2.update r dt) ∧ (w1.update r dt).previous = r ∧
    (w1.update r dt).reset_flag = false := by
  obtain ⟨hi1, hi2, hr1, hr2, hh1, hh2, hapr, hflag, hprev, hav⟩ := hInv
  obtain ⟨f1i, f1r, f1h, f1a, f1f, f1p, f1v⟩ := update_fields w1 r dt
  obtain ⟨f2i, f2r, f2h, f2a, f2f, f2p, f2v⟩ := update_fields w2 r dt
  have hc2 : invertReading R r = R - r :=
    invertReading_eq_sub _ _ (le_of_lt hr) hRle
  have hp1 : (w1.update r dt).previous = r := by rw [f1p, hi1]; simp
  have hp2 : (w2.update r dt).previous = R - r := by rw [f2p, hi2]; simp [hr2, hc2]
  have hhalfpos : 0 < R / 2 := by omega
  refine ⟨⟨by rw [f1i, hi1], by rw [f2i, hi2], by rw [f1r, hr1], by rw [f2r, hr2],
    by rw [f1h, hh1], by rw [f2h, hh2], by rw [f2a, f1a, hapr], by rw [f1f, f2f],
    fun _ => ⟨by omega, by rw [hp2, hp1]⟩, ?_⟩, hp1, f1f⟩
  rw [f1v, f2v, hi1, hi2, hr1, hr2, hh1, hh2, hapr]
  simp only [if_true, if_false, Bool.false_eq_true, ite_false, ite_true, hc2]
  by_cases hrst : w1.reset_flag
  · have hrst2 : w2.reset_flag = true := by rw [← hflag]; exact hrst
    rw [if_pos hrst, if_pos hrst2]
    rw [wrapDelta_self R (R / 2) r hhalfpos, wrapDelta_self R (R / 2) (R - r) hhalfpos]
    norm_num
  · have hrst2 : ¬ w2.reset_flag = true := by rw [← hflag]; exact hrst
    rw [if_neg hrst, if_neg hrst2]
    have hrstf : w1.reset_flag = false := by
      cases h : w1.reset_flag
      · rfl
      · exact absurd h hrst
    obtain ⟨hpR, hp2eq⟩ := hprev hrstf
    rw [hp2eq]
    rw [wrapDelta_invert R w1.previous r hpR hr (hsafe hrstf)]
    push_cast
    ring

/-- Running both twins over a sample list preserves the mirror invariant,
provided the raw readings stay in range and adjacent readings are stepSafe. -/
theorem runWheel_inv (R : ℕ) (hRle : R ≤ 65535) (hR2 : 2 ≤ R) :
    ∀ (l : List (ℕ × ℕ)) (w1 w2 : Wheel), WheelInv R w1 w2 →
      (∀ p ∈ l, p.1 < R) →
      (w1.reset_flag = false → List.Chain' (stepSafe R) (w1.previous :: l.map Prod.fst)) →
      (w1.reset_flag = true → List.Chain' (stepSafe R) (l.map Prod.fst)) →
      WheelInv R (runWheel w1 l) (runWheel w2 l)
  | [], w1, w2, hInv, _, _, _ => by simpa [runWheel] using hInv
  | (r, dt) :: rest, w1, w2, hInv, hvalid, hchainF, hchainT => by
    have hr : r < R := hvalid (r, dt) (List.mem_cons_self _ _)
    by_cases hrst : w1.reset_flag
    · have step := update_inv R hRle hR2 w1 w2 hInv r dt hr
        (fun hf => absurd hf (by simp [hrst]))
      have hnext := runWheel_inv R hRle hR2 rest (w1.update r dt) (w2.update r dt) step.1
        (fun p hp => hvalid p (List.mem_cons_of_mem _ hp))
        (fun _ => by
          rw [step.2.1]
          have := hchainT hrst
          simpa using this)
        (fun hf => by rw [step.2.2] at hf; simp at hf)
      simpa [runWheel, List.foldl_cons] using hnext
    · have hrstf : w1.reset_flag = false := by
        cases h : w1.reset_flag
        · rfl
        · exact absurd h hrst
      have hchain := hchainF hrstf
      rw [List.map_cons, List.chain'_cons] at hchain
      have step := update_inv R hRle hR2 w1 w2 hInv r dt hr (fun _ => hchain.1)
      have hnext := runWheel_inv R hRle hR2 rest (w1.update r dt) (w2.update r dt) step.1
        (fun p hp => hvalid p (List.mem_cons_of_mem _ hp))
        (fun _ => by rw [step.2.1]; exact hchain.2)
        (fun hf => by rw [step.2.2] at hf; simp at hf)
      simpa [runWheel, List.foldl_cons] using hnext

/-- Claim C7 as amended: two WheelEstimators built with the same resolution
(at least 2) and tire diameter but opposite invert flags, fed identical
in-range raw reading sequences and elapsed times, report angular velocities of
equal magnitude and opposite sign after each step, provided that at every step
where the wraparound correction triggers the previous raw reading is neither
floor(resolution / 2) nor resolution - floor(resolution / 2). -/
theorem polarity_amended (R : ℕ) (d : ℝ) (inputs : List (ℕ × ℕ)) (n : ℕ)
    (hRle : R ≤ 65535) (hR2 : 2 ≤ R)
    (hvalid : ∀ p ∈ inputs, p.1 < R ∧ 0 < p.2)
    (hchain : List.Chain' (stepSafe R) (inputs.map Prod.fst)) :
    (runWheel (mkWheel R d true) (inputs.take n)).angular_velocity =
      -(runWheel (mkWheel R d false) (inputs.take n)).angular_velocity := by
  have hInv0 : WheelInv R (mkWheel R d false) (mkWheel R d true) := by
    refine ⟨rfl, rfl, rfl, rfl, rfl, rfl, rfl, rfl, fun hf => ?_, by simp [mkWheel]⟩
    simp [mkWheel] at hf
  have h := runWheel_inv R hRle hR2 (inputs.take n) _ _ hInv0
    (fun p hp => (hvalid p (List.mem_of_mem_take hp)).1)
    (fun hf => by simp [mkWheel] at hf)
    (fun _ => by rw [List.map_take]; exact hchain.take n)
  exact h.av

/-- Witness for polarity_amended: resolution 4, readings 1 then 3. -/
theorem polarity_amended_witness :
    (4 : ℕ) ≤ 65535 ∧ (2 : ℕ) ≤ 4 ∧
    (∀ p ∈ [((1 : ℕ), (1000 : ℕ)), (3, 1000)], p.1 < 4 ∧ 0 < p.2) ∧
    List.Chain' (stepSafe 4) ([((1 : ℕ), (1000 : ℕ)), (3, 1000)].map Prod.fst) ∧
    (runWheel (mkWheel 4 30 true) ([((1 : ℕ), (1000 : ℕ)), (3, 1000)].take 2)).angular_velocity =
      -(runWheel (mkWheel 4 30 false)
          ([((1 : ℕ), (1000 : ℕ)), (3, 1000)].take 2)).angular_velocity := by
  have hchain : List.Chain' (stepSafe 4) ([((1 : ℕ), (1000 : ℕ)), (3, 1000)].map Prod.fst) := by
    simp only [List.map_cons, List.map_nil]
    rw [List.chain'_cons]
    exact ⟨by decide, List.chain'_singleton _⟩
  refine ⟨by norm_num, by norm_num, by decide, hchain, ?_⟩
  exact polarity_amended 4 30 [(1, 1000), (3, 1000)] 2 (by norm_num) (by norm_num)
    (by decide) hchain

end odometry
